import Mathlib

/-!
Verification of the trial/phase control loop of the goal-guy-0 simulation
(`src/goal-guy-0.go`).  The network engine itself (leabra) is external to the
repository's core loop; it is represented by per-trial observation records
(`EngStats`, `TrialObs`) giving the values the engine-side calls
(`MSE`, `CosDiff`, `UnitVals("ActP")`, `ActAvg`) would return.  Machine
float32 arithmetic is modelled by exact rational arithmetic; Go panics
(out-of-range indexing) are modelled by `Option`.
-/

namespace GoalGuy

/-- Epoch accumulator fields of `Sim` (goal-guy-0.go lines 153-166).  The
`GoalSum*` fields are omitted: every write to them in the source is commented
out, so they are dead state. -/
structure Accums where
  motSumSSE : ℚ
  motSumAvgSSE : ℚ
  motSumCosDiff : ℚ
  outSumSSE : ℚ
  outSumAvgSSE : ℚ
  outSumCosDiff : ℚ
  outGoalCntErr : Nat
  outPredCntErr : Nat
deriving DecidableEq

/-- The all-zero accumulator state (`Sim.New` / after `LogEpoch` resets). -/
def accZero : Accums :=
  { motSumSSE := 0, motSumAvgSSE := 0, motSumCosDiff := 0,
    outSumSSE := 0, outSumAvgSSE := 0, outSumCosDiff := 0,
    outGoalCntErr := 0, outPredCntErr := 0 }

/-- Engine-side observations consumed by one `TrialStats` call: the values
`goalLay.MSE(0.5)`, `outcomeLay.MSE(0.5)`, `motorLay.MSE(0.5)`, the two
`CosDiff.Cos` fields, and the per-neuron `ActM` vectors of the Goal and
Outcome layers (lines 465-516). -/
structure EngStats where
  goalSSE : ℚ
  goalAvgSSE : ℚ
  motSSE : ℚ
  motAvgSSE : ℚ
  outSSE : ℚ
  outAvgSSE : ℚ
  motCosDiff : ℚ
  outCosDiff : ℚ
  goalActM : List ℚ
  outActM : List ℚ
deriving DecidableEq

/-- The goal-vs-outcome comparison loop of `TrialStats` (lines 500-509):
`for ni := range goalLay.Neurons`, reading `outcomeLay.Neurons[ni]`.
`gl` is the not-yet-visited suffix of the Goal layer's `ActM` values and
`ni` the index of its head.  Go panics when `ni` falls outside the Outcome
layer (modelled by `none`); a per-unit difference with `|d| < 0.5` is
skipped, otherwise `d*d` is added to the running `oge`. -/
def ogeGo (gl outActM : List ℚ) (ni : Nat) (oge : ℚ) : Option ℚ :=
  match gl with
  | [] => some oge
  | gv :: rest =>
    match outActM[ni]? with
    | none => none
    | some noActM =>
      let d := gv - noActM
      if |d| < 1/2 then ogeGo rest outActM (ni + 1) oge
      else ogeGo rest outActM (ni + 1) (oge + d * d)

/-- The full goal-vs-outcome comparison of `TrialStats` (lines 494-509):
iterate over all Goal-layer units from index 0 with `oge = 0`. -/
def computeOge (goalActM outActM : List ℚ) : Option ℚ :=
  ogeGo goalActM outActM 0 0

/-- The size-mismatch warning of `TrialStats` (lines 495-499): `true` exactly
when `fmt.Println("Number of neuron-units does not match ...")` fires. -/
def trialStatsSizeWarn (eng : EngStats) : Bool :=
  decide (eng.goalActM.length ≠ eng.outActM.length)

/-- The `if accum` block of `TrialStats` case 0 (lines 484-492): add the
outcome SSE / avg-SSE / cosine values into the epoch sums and bump the
outcome self-prediction error count when `osse != 0`. -/
def accumOut (eng : EngStats) (acc : Accums) : Accums :=
  { acc with
      outSumSSE := acc.outSumSSE + eng.outSSE
      outSumAvgSSE := acc.outSumAvgSSE + eng.outAvgSSE
      outSumCosDiff := acc.outSumCosDiff + eng.outCosDiff
      outPredCntErr :=
        if eng.outSSE ≠ 0 then acc.outPredCntErr + 1 else acc.outPredCntErr }

/-- The `if oge != 0` goal-vs-outcome counter update of `TrialStats`
case 0 (lines 510-512). -/
def bumpGoalCnt (oge : ℚ) (acc : Accums) : Accums :=
  if oge ≠ 0 then { acc with outGoalCntErr := acc.outGoalCntErr + 1 } else acc

/-- `Sim.TrialStats` (lines 464-527).  Callers in the source discard the
returned metric tuple, so only the accumulator updates are carried here.
Case 0 (sub-phase 0): accumulate outcome SSE / avg-SSE / cosine and the
outcome self-prediction error count when `accum`; then run the
goal-vs-outcome loop (its panic is modelled by `none`) and bump
`outGoalCntErr` when the aggregated squared difference is nonzero (note
this bump sits outside the `accum` guard in the source).  Case 1
(sub-phase 1): accumulate motor statistics.  Any other value prints an
out-of-range message and accumulates nothing. -/
def trialStats (alphaCycle : Nat) (accum : Bool) (eng : EngStats) (acc : Accums) :
    Option Accums :=
  match alphaCycle with
  | 0 =>
    let acc1 := if accum then accumOut eng acc else acc
    match computeOge eng.goalActM eng.outActM with
    | none => none
    | some oge => some (bumpGoalCnt oge acc1)
  | 1 =>
    let msse := eng.motSSE
    let mavgsse := eng.motAvgSSE
    let motcosdiff := eng.motCosDiff
    some (if accum then
            { acc with
              motSumSSE := acc.motSumSSE + msse,
              motSumAvgSSE := acc.motSumAvgSSE + mavgsse,
              motSumCosDiff := acc.motSumCosDiff + motcosdiff }
          else acc)
  | _ => some acc

/-- Per-layer mean activity read at `LogEpoch` time
(`Pools[0].ActAvg.ActMAvg`, lines 601-604). -/
structure ActAvgs where
  context : ℚ
  goal : ℚ
  motor : ℚ
  outcome : ℚ
deriving DecidableEq

/-- One row of the `EpcLog` table (schema at lines 737-761). -/
structure EpcRow where
  epoch : Nat
  motSSE : ℚ
  outSSE : ℚ
  motAvgSSE : ℚ
  outAvgSSE : ℚ
  outGoalPctErr : ℚ
  outPredPctErr : ℚ
  outGoalPctCor : ℚ
  outPredPctCor : ℚ
  motCosDiff : ℚ
  outCosDiff : ℚ
  contextActAvg : ℚ
  goalActAvg : ℚ
  motorActAvg : ℚ
  outActAvg : ℚ
  outPredCntErr : ℚ
  outGoalCntErr : ℚ
deriving DecidableEq

/-- The all-zero `EpcRow` (a freshly sized, unwritten table row). -/
def epcRowZero : EpcRow :=
  { epoch := 0, motSSE := 0, outSSE := 0, motAvgSSE := 0, outAvgSSE := 0,
    outGoalPctErr := 0, outPredPctErr := 0, outGoalPctCor := 0,
    outPredPctCor := 0, motCosDiff := 0, outCosDiff := 0, contextActAvg := 0,
    goalActAvg := 0, motorActAvg := 0, outActAvg := 0, outPredCntErr := 0,
    outGoalCntErr := 0 }

/-- The statistics part of `Sim.LogEpoch` (lines 540-608), in source order:
normalize each sum by `np`, zero the sums, compute the percent-error and
percent-correct fields, zero the two error counters (lines 567-568), and
only then build the row — so the `OutGoalCntErr` / `OutPredCntErr` columns
(lines 606-607) are written from the already-zeroed counters.  Returns the
written row and the reset accumulators. -/
def logEpochRow (acc : Accums) (np : Nat) (avgs : ActAvgs) (epoch : Nat) :
    EpcRow × Accums :=
  let npq : ℚ := (np : ℚ)
  let epcMotSSE := acc.motSumSSE / npq
  let epcOutSSE := acc.outSumSSE / npq
  let motSumSSE2 : ℚ := 0
  let outSumSSE2 : ℚ := 0
  let epcMotAvgSSE := acc.motSumAvgSSE / npq
  let epcOutAvgSSE := acc.outSumAvgSSE / npq
  let motSumAvgSSE2 : ℚ := 0
  let outSumAvgSSE2 : ℚ := 0
  let epcOutGoalPctErr := (acc.outGoalCntErr : ℚ) / npq
  let epcOutPredPctErr := (acc.outPredCntErr : ℚ) / npq
  let outGoalCntErr2 : Nat := 0
  let outPredCntErr2 : Nat := 0
  let epcOutGoalPctCor := 1 - epcOutGoalPctErr
  let epcOutPredPctCor := 1 - epcOutPredPctErr
  let epcMotCosDiff := acc.motSumCosDiff / npq
  let epcOutCosDiff := acc.outSumCosDiff / npq
  let motSumCosDiff2 : ℚ := 0
  let outSumCosDiff2 : ℚ := 0
  let row : EpcRow :=
    { epoch := epoch, motSSE := epcMotSSE, outSSE := epcOutSSE,
      motAvgSSE := epcMotAvgSSE, outAvgSSE := epcOutAvgSSE,
      outGoalPctErr := epcOutGoalPctErr, outPredPctErr := epcOutPredPctErr,
      outGoalPctCor := epcOutGoalPctCor, outPredPctCor := epcOutPredPctCor,
      motCosDiff := epcMotCosDiff, outCosDiff := epcOutCosDiff,
      contextActAvg := avgs.context, goalActAvg := avgs.goal,
      motorActAvg := avgs.motor, outActAvg := avgs.outcome,
      outGoalCntErr := (outGoalCntErr2 : ℚ),
      outPredCntErr := (outPredCntErr2 : ℚ) }
  (row,
   { motSumSSE := motSumSSE2, motSumAvgSSE := motSumAvgSSE2,
     motSumCosDiff := motSumCosDiff2, outSumSSE := outSumSSE2,
     outSumAvgSSE := outSumAvgSSE2, outSumCosDiff := outSumCosDiff2,
     outGoalCntErr := outGoalCntErr2, outPredCntErr := outPredCntErr2 })

/-- `EpcLog.SetNumRows(epoch+1)` followed by writing row `epoch`
(lines 541 and 581-607): resize the table to `epoch+1` rows (padding with
zero rows) and overwrite index `epoch`. -/
def epcLogSet (log : List EpcRow) (epoch : Nat) (row : EpcRow) : List EpcRow :=
  ((log.take (epoch + 1)) ++ List.replicate (epoch + 1 - log.length) epcRowZero).set epoch row

/-! ### Pseudo-random permutation stream

`Init` calls `rand.Seed(ss.RndSeed)` and `rand.Perm(np)`; each epoch boundary
calls `erand.PermuteInts(ss.Porder)` (a Fisher-Yates `rand.Shuffle`) on the
global generator.  Go's `math/rand` generator is modelled by a deterministic
64-bit linear-congruential stream: the claims depend only on the stream being
a deterministic function of the seed, not on its particular values. -/

/-- One step of the modelled PRNG stream (stands in for Go `math/rand`);
the modulus 18446744073709551616 is 2^64, the generator's word size. -/
def lcgNext (s : Nat) : Nat :=
  (6364136223846793005 * s + 1442695040888963407) % 18446744073709551616

/-- `rand.Intn(n)`: value in `[0, n)` plus the advanced stream state. -/
def randIntn (s n : Nat) : Nat × Nat :=
  let s2 := lcgNext s
  (s2 % n, s2)

/-- The loop body of Go `rand.Perm(n)`:
`for i := 0..n-1 { j := Intn(i+1); m[i] = m[j]; m[j] = i }`; `k` counts the
remaining iterations while `i` is the current index. -/
def randPermGo (k i : Nat) (m : List Nat) (s : Nat) : List Nat × Nat :=
  match k with
  | 0 => (m, s)
  | k2 + 1 =>
    let p := randIntn s (i + 1)
    let m2 := (m.set i (m.getD p.1 0)).set p.1 i
    randPermGo k2 (i + 1) m2 p.2

/-- Go `rand.Perm(n)` (used at `Init`, line 213). -/
def randPerm (s n : Nat) : List Nat × Nat :=
  randPermGo n 0 (List.replicate n 0) s

/-- The countdown loop of Go `rand.Shuffle`:
`for i := n-1; i > 0; i-- { j := Intn(i+1); swap(l[i], l[j]) }`. -/
def shuffleLoop (l : List Nat) (i s : Nat) : List Nat × Nat :=
  match i with
  | 0 => (l, s)
  | k + 1 =>
    let p := randIntn s (k + 2)
    let l2 := (l.set (k + 1) (l.getD p.1 0)).set p.1 (l.getD (k + 1) 0)
    shuffleLoop l2 k p.2

/-- `erand.PermuteInts` (epoch boundary, line 451): a Fisher-Yates shuffle of
the presentation order. -/
def permuteInts (l : List Nat) (s : Nat) : List Nat × Nat :=
  match l.length with
  | 0 => (l, s)
  | n + 1 => shuffleLoop l n s

/-! ### Simulation state and the trial step -/

/-- The Pattern Store (`ExtReps` table): row count, cells per row
(`RowCellSize`), and the flattened Motor and Outcome columns — the two
columns the training loop mutates.  The Context and Goal columns are only
ever read into engine-side clamps, which the engine abstraction absorbs. -/
structure PatStore where
  rows : Nat
  cells : Nat
  motor : List ℚ
  outcome : List ℚ
deriving DecidableEq

/-- Engine observations for one `TrainTrial` call: the two
`UnitVals("ActP")` results read after sub-phase 0 (`none` models a
failed read, line 379/397), the engine metrics at each of the two
`TrialStats` calls, and the layer activity averages read if this trial
ends the epoch. -/
structure TrialObs where
  mavActP : Option (List ℚ)
  oavActP : Option (List ℚ)
  stats0 : EngStats
  stats1 : EngStats
  avgs : ActAvgs
deriving DecidableEq

/-- Events recording, in program order, the externally visible actions of the
training loop: input application per sub-phase, the settle and the two
learning calls inside `AlphaCyc(true)`, the capture write (or its skip), the
relay reset with the sizes it uses, the two `TrialStats` calls, the epoch-log
write, the re-permutation, and each read of the `StopNow` flag. -/
inductive Ev where
  | apply (alphaCycle row : Nat)
  | settle
  | dwt
  | wtFmDwt
  | captureWrite (row : Nat)
  | captureSkip
  | clearRelay (row msz osz : Nat)
  | stats (alphaCycle : Nat)
  | logEpoch (epoch : Nat)
  | permute
  | checkStop (b : Bool)
deriving DecidableEq

/-- The `Sim` fields read or written by the training loop. -/
structure SimState where
  rows : Nat
  cells : Nat
  extMotor : List ℚ
  extOutcome : List ℚ
  trial : Nat
  epoch : Nat
  maxEpcs : Nat
  porder : List Nat
  sequential : Bool
  test : Bool
  stopNow : Bool
  acc : Accums
  epcLog : List EpcRow
  rng : Nat
  gstep : Nat
deriving DecidableEq

/-- The capture write-back loop (lines 387-390 and 405-408):
`for i := range v { col.SetFloat1D(stidx+i, v[i]) }`. -/
def writeVec (col : List ℚ) (stidx : Nat) (v : List ℚ) : List ℚ :=
  match v with
  | [] => col
  | a :: rest => writeVec (col.set stidx a) (stidx + 1) rest

/-- The relay reset loop (lines 417-422):
`for j := 0; j < sz; j++ { col.SetFloat1D(start+j, 0) }` — note the source
addresses `row+j`, not `row*cells+j`. -/
def clearVec (col : List ℚ) (start sz : Nat) : List ℚ :=
  match sz with
  | 0 => col
  | n + 1 => clearVec (col.set start 0) (start + 1) n

/-- `Sim.TrainTrial` (lines 357-456), given the engine observations `ob` for
this call.  `none` models the panic on `ss.Porder[ss.Trial]` when the
permutation is shorter than the trial index, and the panic inside
`TrialStats`.

Source structure mirrored: row selection; the two-iteration
`for ss.AlphaCycle < 2` loop — iteration 0 applies inputs, settles with
learning, captures Motor/Outcome `ActP` into the Pattern Store at
`row*cells`, and runs `TrialStats(true)`; iteration 1 applies inputs,
settles with learning, re-declares `var msz, osz int` (loop-local, hence
zero) and runs the reset loops over those zero sizes at offset `row`, then
breaks — followed by the sub-phase-1 `TrialStats(true)`, the trial
increment, and the epoch-boundary block (`LogEpoch`, trial reset, epoch
increment, `PermuteInts`). -/
def trainTrialOb (s : SimState) (ob : TrialObs) : Option (SimState × List Ev) :=
  match (if s.sequential then some s.trial else s.porder[s.trial]?) with
  | none => none
  | some row =>
    -- AlphaCycle = 0: ApplyInputs (Context input, Outcome target), AlphaCyc(true)
    let mav := ob.mavActP.getD []
    let stidx := row * s.cells
    let extMotor1 := if ob.mavActP.isSome then writeVec s.extMotor stidx mav else s.extMotor
    let oav := ob.oavActP.getD []
    let sidx := row * s.cells
    let extOutcome1 := if ob.oavActP.isSome then writeVec s.extOutcome sidx oav else s.extOutcome
    let capEv : List Ev :=
      (if ob.mavActP.isSome then [Ev.captureWrite row] else [Ev.captureSkip]) ++
      (if ob.oavActP.isSome then [Ev.captureWrite row] else [Ev.captureSkip])
    match trialStats 0 true ob.stats0 s.acc with
    | none => none
    | some acc1 =>
      -- AlphaCycle = 1: ApplyInputs (Goal input from captured Outcome, Motor
      -- target), AlphaCyc(true); `var msz, osz int` re-declared inside the
      -- loop, so the reset runs over zero sizes, at offset `row`
      let msz1 : Nat := 0
      let osz1 : Nat := 0
      let extMotor2 := clearVec extMotor1 row msz1
      let extOutcome2 := clearVec extOutcome1 row osz1
      match trialStats 1 true ob.stats1 acc1 with
      | none => none
      | some acc2 =>
        let trace0 : List Ev :=
          [Ev.apply 0 row, Ev.settle, Ev.dwt, Ev.wtFmDwt] ++ capEv ++
          [Ev.stats 0, Ev.apply 1 row, Ev.settle, Ev.dwt, Ev.wtFmDwt,
           Ev.clearRelay row msz1 osz1, Ev.stats 1]
        let trial1 := s.trial + 1
        if trial1 ≥ s.rows then
          let lr := logEpochRow acc2 s.rows ob.avgs s.epoch
          let pr := permuteInts s.porder s.rng
          some ({ s with
                    extMotor := extMotor2
                    extOutcome := extOutcome2
                    trial := 0
                    epoch := s.epoch + 1
                    acc := lr.2
                    epcLog := epcLogSet s.epcLog s.epoch lr.1
                    porder := pr.1
                    rng := pr.2
                    gstep := s.gstep + 1 },
                trace0 ++ [Ev.logEpoch s.epoch, Ev.permute])
        else
          some ({ s with
                    extMotor := extMotor2
                    extOutcome := extOutcome2
                    trial := trial1
                    acc := acc2
                    gstep := s.gstep + 1 },
                trace0)

/-- `Sim.TrainTrial` applied to the engine-observation stream: the engine's
behavior during this call is `obs s.gstep` (the engine is deterministic, so
its call-by-call observations form a stream indexed by the global trial
counter, which each trial advances by one). -/
def trainTrial (s : SimState) (obs : Nat → TrialObs) : Option (SimState × List Ev) :=
  trainTrialOb s (obs s.gstep)

/-- `Sim.TrainEpoch`'s loop (lines 611-621): run `TrainTrial` repeatedly,
checking `ss.StopNow || ss.Epoch > curEpc` after each trial — the only
places the stop flag is read.  Fuel-bounded for termination; fuel
exhaustion returns the state reached so far. -/
def trainEpochGo (fuel curEpc : Nat) (s : SimState) (obs : Nat → TrialObs) :
    Option (SimState × List Ev) :=
  match fuel with
  | 0 => some (s, [])
  | f + 1 =>
    match trainTrial s obs with
    | none => none
    | some (s1, tr) =>
      let b := s1.stopNow || decide (s1.epoch > curEpc)
      if s1.stopNow || s1.epoch > curEpc then some (s1, tr ++ [Ev.checkStop b])
      else
        match trainEpochGo f curEpc s1 obs with
        | none => none
        | some (s2, tr2) => some (s2, tr ++ Ev.checkStop b :: tr2)

/-- `Sim.TrainEpoch` (lines 611-621). -/
def trainEpoch (fuel : Nat) (s : SimState) (obs : Nat → TrialObs) :
    Option (SimState × List Ev) :=
  trainEpochGo fuel s.epoch s obs

/-- The loop of `Sim.Train` (lines 629-634): run `TrainTrial` repeatedly,
checking `ss.StopNow || ss.Epoch >= ss.MaxEpcs` after each trial. -/
def trainGo (fuel : Nat) (s : SimState) (obs : Nat → TrialObs) :
    Option (SimState × List Ev) :=
  match fuel with
  | 0 => some (s, [])
  | f + 1 =>
    match trainTrial s obs with
    | none => none
    | some (s1, tr) =>
      let b := s1.stopNow || decide (s1.epoch ≥ s1.maxEpcs)
      if s1.stopNow || s1.epoch ≥ s1.maxEpcs then some (s1, tr ++ [Ev.checkStop b])
      else
        match trainGo f s1 obs with
        | none => none
        | some (s2, tr2) => some (s2, tr ++ Ev.checkStop b :: tr2)

/-- `Sim.Train` (lines 624-638): clears `StopNow`, then runs the trial loop.
The wall-clock timer around the loop feeds only the final diagnostic
`Printf` and is not part of the returned state. -/
def train (fuel : Nat) (s : SimState) (obs : Nat → TrialObs) :
    Option (SimState × List Ev) :=
  trainGo fuel { s with stopNow := false } obs

/-- `Sim.Init` (lines 203-218): seed the generator from `RndSeed`, default
`MaxEpcs` to 500 when zero, reset counters and the stop flag, draw the
initial permutation with `rand.Perm(np)`, and empty the epoch log.
`sequential` and `test` are `Sim` fields `Init` does not touch, so they are
parameters here.  The seed is an `int64` in the source, encoded into the
modelled stream state by `Int.natAbs`. -/
def initSim (seed : Int) (maxEpcs0 : Nat) (pats : PatStore)
    (sequential test : Bool) : SimState :=
  let rng0 := seed.natAbs % 18446744073709551616
  let maxE := if maxEpcs0 = 0 then 500 else maxEpcs0
  let pr := randPerm rng0 pats.rows
  { rows := pats.rows, cells := pats.cells, extMotor := pats.motor,
    extOutcome := pats.outcome, trial := 0, epoch := 0, maxEpcs := maxE,
    porder := pr.1, sequential := sequential, test := test, stopNow := false,
    acc := accZero, epcLog := [], rng := pr.2, gstep := 0 }

/-- `Sim.OpenExtReps` (lines 726-732): a failed `OpenCSV` is passed to
`log.Println` (the Bool records that the logger fired) and the simulation
keeps whatever Pattern Store state already exists; a successful load
installs the loaded table. -/
def openExtReps (res : Except Unit PatStore) (cur : PatStore) : PatStore × Bool :=
  match res with
  | Except.ok t => (t, false)
  | Except.error _ => (cur, true)

/-- A full run as launched from the GUI: `Init` then `Train`
(`maxEpcs`-bounded).  `envTimeNow` stands for the wall clock that
`NewRndSeed`/the diagnostic timer would read; it is listed as an input to
make explicit that nothing in the `Init`+`Train` path consumes it. -/
def runSim (seed : Int) (maxEpcs0 : Nat) (pats : PatStore)
    (sequential test : Bool) (obs : Nat → TrialObs) (fuel : Nat)
    (envTimeNow : Int) : Option (SimState × List Ev) :=
  let _ := envTimeNow
  train fuel (initSim seed maxEpcs0 pats sequential test) obs

/-! ### Concrete fixtures used by the evaluation theorems and witnesses -/

/-- Engine metrics that are all zero, with one-unit Goal and Outcome layers. -/
def engZero : EngStats :=
  { goalSSE := 0, goalAvgSSE := 0, motSSE := 0, motAvgSSE := 0, outSSE := 0,
    outAvgSSE := 0, motCosDiff := 0, outCosDiff := 0, goalActM := [0],
    outActM := [0] }

/-- All-zero layer activity averages. -/
def avgsZero : ActAvgs := { context := 0, goal := 0, motor := 0, outcome := 0 }

/-- A 2-row, 2-cells-per-row Pattern Store state at the last trial of an
epoch: authored Motor column all zero, authored Outcome column `[0,0,1,1]`,
presenting row 1. -/
def simC1 : SimState :=
  { rows := 2, cells := 2, extMotor := [0, 0, 0, 0],
    extOutcome := [0, 0, 1, 1], trial := 1, epoch := 0, maxEpcs := 500,
    porder := [1, 0], sequential := true, test := false, stopNow := false,
    acc := accZero, epcLog := [], rng := 7, gstep := 0 }

/-- Engine observations for `simC1`: the settled `ActP` activity is
`[3,4]` on Motor and `[5,6]` on Outcome — different from the authored
pattern values. -/
def obsC1 : Nat → TrialObs := fun _ =>
  { mavActP := some [3, 4], oavActP := some [5, 6], stats0 := engZero,
    stats1 := engZero, avgs := avgsZero }

/-- Accumulator state at an epoch boundary with raw error counts 2 and 3. -/
def accC2 : Accums :=
  { accZero with outSumSSE := 6, outGoalCntErr := 2, outPredCntErr := 3 }

/-- Engine metrics whose Goal layer has two units but whose Outcome layer
has one: the mismatch case of `TrialStats`. -/
def engC3 : EngStats := { engZero with goalActM := [0, 0], outActM := [0] }

/-- Engine metrics with two-unit layers where Goal unit 0 settles to 1 while
Outcome unit 0 settles to 0 — one unit beyond the 0.5 tolerance. -/
def engC5 : EngStats := { engZero with goalActM := [1, 0], outActM := [0, 0] }

/-- The simulation state after `Init` over an empty Pattern Store (`N = 0`)
in the default random-presentation mode: `Porder = rand.Perm(0) = []`. -/
def simC9 : SimState :=
  { rows := 0, cells := 25, extMotor := [], extOutcome := [], trial := 0,
    epoch := 0, maxEpcs := 500, porder := [], sequential := false,
    test := false, stopNow := false, acc := accZero, epcLog := [], rng := 1,
    gstep := 0 }

/-! ### C1 -/

/-- C1: the claim says that immediately after the sub-phase-1 reset the
Pattern Store's Motor and Outcome slots at the presented row again hold the
authored pre-capture values.  Evaluating `TrainTrial` on `simC1` shows the
opposite: because `var msz, osz int` is declared inside the two-iteration
loop, the reset iteration sees `msz = osz = 0` and overwrites nothing, so
after the trial the slots still hold the captured activity `[3,4]` / `[5,6]`
rather than the authored `[0,0]` / `[1,1]` — the next epoch's sub-phase-0
clamp of this row would read the stale captured Outcome. -/
theorem c1_relay_not_cleared :
    ((trainTrial simC1 obsC1).map fun r => r.1.extMotor) = some [0, 0, 3, 4]
    ∧ ((trainTrial simC1 obsC1).map fun r => r.1.extOutcome) = some [0, 0, 5, 6]
    ∧ ([0, 0, 3, 4] : List ℚ) ≠ simC1.extMotor
    ∧ ([0, 0, 5, 6] : List ℚ) ≠ simC1.extOutcome := by
  with_unfolding_all decide

/-! ### C2 -/

/-- C2: the claim says each epoch row holds the raw error counts in the
`OutGoalCntErr` / `OutPredCntErr` columns.  `LogEpoch` zeroes both counters
(lines 567-568) before writing those columns (lines 606-607), so the logged
values are always 0 even when the epoch's raw counts were 2 and 3 — while
the percent-error fields, computed before the reset, still reflect the true
counts (2/4 and 3/4 over N = 4). -/
theorem c2_raw_counts_not_logged :
    (logEpochRow accC2 4 avgsZero 0).1.outGoalCntErr = 0
    ∧ (logEpochRow accC2 4 avgsZero 0).1.outPredCntErr = 0
    ∧ (logEpochRow accC2 4 avgsZero 0).1.outGoalPctErr = 1/2
    ∧ (logEpochRow accC2 4 avgsZero 0).1.outPredPctErr = 3/4
    ∧ accC2.outGoalCntErr ≠ 0 ∧ accC2.outPredCntErr ≠ 0 := by
  with_unfolding_all decide

/-! ### C3 counterexample -/

/-- C3 counterexample: with two Goal units and one Outcome unit, the
trial-statistics computation does not continue non-fatally — the per-unit
comparison loop indexes `outcomeLay.Neurons[1]` out of range and the
computation aborts (`none`), contradicting the claim that a unit-count
mismatch never aborts or fails. -/
theorem c3_counterexample : trialStats 0 true engC3 accZero = none := by
  with_unfolding_all decide

/-! ### Lemmas about the goal-vs-outcome comparison loop -/

theorem getD_of_lt (l : List ℚ) (n : Nat) (h : n < l.length) :
    l.getD n 0 = l[n] := by
  simp [List.getD_eq_getElem?_getD, List.getElem?_eq_getElem h]

theorem ogeGo_isSome (gl o : List ℚ) (ni : Nat) (oge : ℚ)
    (h : ni + gl.length ≤ o.length) : (ogeGo gl o ni oge).isSome = true := by
  induction gl generalizing ni oge with
  | nil => simp [ogeGo]
  | cons gv rest ih =>
    have hni : ni < o.length := by simp at h; omega
    simp only [ogeGo, List.getElem?_eq_getElem hni]
    split
    · exact ih (ni + 1) oge (by simp at h ⊢; omega)
    · exact ih (ni + 1) _ (by simp at h ⊢; omega)

theorem ogeGo_none (gl o : List ℚ) (ni : Nat) (oge : ℚ)
    (h1 : ni ≤ o.length) (h2 : o.length < ni + gl.length) :
    ogeGo gl o ni oge = none := by
  induction gl generalizing ni oge with
  | nil => simp at h2; omega
  | cons gv rest ih =>
    by_cases hni : ni < o.length
    · simp only [ogeGo, List.getElem?_eq_getElem hni]
      split
      · exact ih (ni + 1) oge (by omega) (by simp at h2 ⊢; omega)
      · exact ih (ni + 1) _ (by omega) (by simp at h2 ⊢; omega)
    · have hn : o[ni]? = none := List.getElem?_eq_none (by omega)
      simp [ogeGo, hn]

theorem ogeGo_le (gl o : List ℚ) (ni : Nat) (oge v : ℚ)
    (h : ogeGo gl o ni oge = some v) : oge ≤ v := by
  induction gl generalizing ni oge with
  | nil =>
    simp [ogeGo] at h
    exact le_of_eq h
  | cons gv rest ih =>
    cases hget : o[ni]? with
    | none => simp [ogeGo, hget] at h
    | some x =>
      simp only [ogeGo, hget] at h
      split at h
      · exact ih (ni + 1) oge h
      · have h2 := ih (ni + 1) _ h
        nlinarith [mul_self_nonneg (gv - x)]

theorem ogeGo_all_small (gl o : List ℚ) (ni : Nat) (oge : ℚ)
    (hs : ∀ k, k < gl.length → |gl.getD k 0 - o.getD (ni + k) 0| < 1/2)
    (hlen : ni + gl.length ≤ o.length) :
    ogeGo gl o ni oge = some oge := by
  induction gl generalizing ni oge with
  | nil => simp [ogeGo]
  | cons gv rest ih =>
    have hni : ni < o.length := by simp at hlen; omega
    have h0 := hs 0 (by simp)
    rw [List.getD_cons_zero, Nat.add_zero, getD_of_lt o ni hni] at h0
    simp only [ogeGo, List.getElem?_eq_getElem hni, if_pos h0]
    refine ih (ni + 1) oge ?_ (by simp at hlen ⊢; omega)
    intro k hk
    have hsk := hs (k + 1) (by simp; omega)
    rw [List.getD_cons_succ] at hsk
    have harith : ni + (k + 1) = ni + 1 + k := by omega
    rwa [harith] at hsk

theorem ogeGo_pos (gl o : List ℚ) (ni : Nat) (oge : ℚ) (hoge : 0 ≤ oge)
    (hlen : ni + gl.length ≤ o.length)
    (hbig : ∃ k, k < gl.length ∧ ¬ |gl.getD k 0 - o.getD (ni + k) 0| < 1/2) :
    ∃ v, ogeGo gl o ni oge = some v ∧ 0 < v := by
  induction gl generalizing ni oge with
  | nil =>
    obtain ⟨k, hk, _⟩ := hbig
    simp at hk
  | cons gv rest ih =>
    have hni : ni < o.length := by simp at hlen; omega
    have hx : o.getD ni 0 = o[ni] := getD_of_lt o ni hni
    by_cases hsmall : |gv - o[ni]| < 1/2
    · obtain ⟨k, hk, hbigk⟩ := hbig
      cases k with
      | zero =>
        rw [List.getD_cons_zero, Nat.add_zero, hx] at hbigk
        exact absurd hsmall hbigk
      | succ k2 =>
        have hrec := ih (ni + 1) oge hoge (by simp at hlen ⊢; omega) ?_
        · simpa only [ogeGo, List.getElem?_eq_getElem hni, if_pos hsmall] using hrec
        · refine ⟨k2, by simp at hk; omega, ?_⟩
          rw [List.getD_cons_succ] at hbigk
          have harith : ni + (k2 + 1) = ni + 1 + k2 := by omega
          rwa [harith] at hbigk
    · have hne : gv - o[ni] ≠ 0 := fun h0 => hsmall (by rw [h0]; norm_num)
      have hsq : 0 < (gv - o[ni]) * (gv - o[ni]) := mul_self_pos.mpr hne
      have hs2 := ogeGo_isSome rest o (ni + 1) (oge + (gv - o[ni]) * (gv - o[ni]))
        (by simp at hlen ⊢; omega)
      obtain ⟨v, hv⟩ := Option.isSome_iff_exists.mp hs2
      refine ⟨v, ?_, ?_⟩
      · simp only [ogeGo, List.getElem?_eq_getElem hni, if_neg hsmall]
        exact hv
      · have hle := ogeGo_le rest o (ni + 1) _ v hv
        linarith

/-- The per-unit activity difference between the Goal and Outcome layers at
unit `i`, as compared by the `TrialStats` loop. -/
def unitDiff (eng : EngStats) (i : Nat) : ℚ :=
  eng.goalActM.getD i 0 - eng.outActM.getD i 0

/-! ### C3 amended -/

/-- C3 amended: when the Goal and Outcome layers have different unit counts,
`TrialStats` reports the warning; it continues non-fatally exactly when the
Goal layer has at most as many units as the Outcome layer, and when the Goal
layer has more units the per-unit comparison indexes past the Outcome layer
and aborts. -/
theorem c3_mismatch_warn_scope (eng : EngStats) (accum : Bool) (acc : Accums) :
    (eng.goalActM.length ≤ eng.outActM.length →
      (trialStats 0 accum eng acc).isSome = true)
    ∧ (eng.outActM.length < eng.goalActM.length →
      trialStats 0 accum eng acc = none)
    ∧ (trialStatsSizeWarn eng = true ↔ eng.goalActM.length ≠ eng.outActM.length) := by
  refine ⟨?_, ?_, ?_⟩
  · intro h
    have h1 := ogeGo_isSome eng.goalActM eng.outActM 0 0 (by omega)
    obtain ⟨v, hv⟩ := Option.isSome_iff_exists.mp h1
    simp [trialStats, computeOge, hv]
  · intro h
    have h1 := ogeGo_none eng.goalActM eng.outActM 0 0 (by omega) (by omega)
    simp [trialStats, computeOge, h1]
  · simp [trialStatsSizeWarn]

/-- C3 amended, witness: a one-unit-Goal, one-unit-Outcome configuration
continues; a two-unit-Goal, one-unit-Outcome configuration aborts; the
mismatch warning fires for the latter. -/
theorem c3_mismatch_warn_scope_witness :
    (trialStats 0 true engZero accZero).isSome = true
    ∧ trialStats 0 true engC3 accZero = none
    ∧ trialStatsSizeWarn engC3 = true := by
  refine ⟨(c3_mismatch_warn_scope engZero true accZero).1 (by decide),
          (c3_mismatch_warn_scope engC3 true accZero).2.1 (by decide),
          ((c3_mismatch_warn_scope engC3 true accZero).2.2).mpr (by decide)⟩

/-! ### C5 -/

/-- C5: in the sub-phase-0 statistics pass with accumulation enabled (and
goal/outcome unit counts matching, the non-panicking configuration), the
goal-vs-outcome mismatch counter gains exactly 1 when some unit's activity
difference exceeds the 0.5 tolerance, gains 0 when every unit's difference
is within tolerance, and in all cases gains at most 1 — never once per
mismatching unit. -/
theorem c5_mismatch_counter (eng : EngStats) (acc : Accums)
    (hlen : eng.goalActM.length = eng.outActM.length) :
    ∃ acc2, trialStats 0 true eng acc = some acc2
      ∧ ((∃ i, i < eng.goalActM.length ∧ 1/2 < |unitDiff eng i|) →
          acc2.outGoalCntErr = acc.outGoalCntErr + 1)
      ∧ ((∀ i, i < eng.goalActM.length → |unitDiff eng i| < 1/2) →
          acc2.outGoalCntErr = acc.outGoalCntErr)
      ∧ acc2.outGoalCntErr ≤ acc.outGoalCntErr + 1 := by
  have hsome := ogeGo_isSome eng.goalActM eng.outActM 0 0 (by omega)
  obtain ⟨oge, hoge⟩ := Option.isSome_iff_exists.mp hsome
  have hres : trialStats 0 true eng acc = some (bumpGoalCnt oge (accumOut eng acc)) := by
    simp [trialStats, computeOge, hoge]
  refine ⟨bumpGoalCnt oge (accumOut eng acc), hres, ?_, ?_, ?_⟩
  · rintro ⟨i, hi, hgt⟩
    have hpos := ogeGo_pos eng.goalActM eng.outActM 0 0 le_rfl (by omega)
      ⟨i, hi, by rw [Nat.zero_add]; rw [unitDiff] at hgt; intro hlt; linarith⟩
    obtain ⟨v, hv, hvpos⟩ := hpos
    rw [hoge] at hv
    obtain rfl : oge = v := Option.some.inj hv
    have hne : oge ≠ 0 := ne_of_gt hvpos
    simp [bumpGoalCnt, if_pos hne, accumOut]
  · intro hall
    have h0 : ogeGo eng.goalActM eng.outActM 0 0 = some 0 := by
      refine ogeGo_all_small eng.goalActM eng.outActM 0 0 ?_ (by omega)
      intro k hk
      have hdk := hall k hk
      rw [unitDiff] at hdk
      rwa [Nat.zero_add]
    rw [h0] at hoge
    obtain rfl : (0:ℚ) = oge := Option.some.inj hoge
    simp [bumpGoalCnt, accumOut]
  · rw [bumpGoalCnt]
    split
    · simp [accumOut]
    · simp [accumOut]

/-- C5 witness: with Goal activity `[1,0]` and Outcome activity `[0,0]`
(unit 0 differs by 1 > 0.5), one sub-phase-0 statistics pass with
accumulation raises the mismatch counter from 0 to exactly 1. -/
theorem c5_mismatch_counter_witness :
    ∃ acc2, trialStats 0 true engC5 accZero = some acc2
      ∧ acc2.outGoalCntErr = accZero.outGoalCntErr + 1 := by
  obtain ⟨acc2, h1, h2, h3, h4⟩ := c5_mismatch_counter engC5 accZero (by decide)
  exact ⟨acc2, h1, h2 ⟨0, by decide, by with_unfolding_all decide⟩⟩

/-! ### C9 counterexample -/

/-- C9 counterexample: with an empty Pattern Store (`N = 0`, so
`Porder = []`) in the default random-presentation mode, the training step
does not proceed to an immediate epoch boundary: `TrainTrial` reads
`ss.Porder[0]` out of range and fails. -/
theorem c9_counterexample : trainTrial simC9 obsC1 = none := rfl

/-! ### C6 -/

/-- C6: if the produced-activity read fails for one role after sub-phase 0
(`UnitVals` returns an error, modelled by `none`), the write-back for that
role is skipped for this trial only — that role's Pattern Store column is
left untouched — while the trial is not aborted and the other role's
capture and the rest of the trial (statistics, counters, log) proceed
exactly as in the fully successful run. -/
theorem c6_read_fail_skips_role_only (s : SimState) (ob : TrialObs)
    (r : SimState × List Ev) (h : trainTrialOb s ob = some r) :
    (∃ rm, trainTrialOb s { ob with mavActP := none } = some rm
      ∧ rm.1.extMotor = s.extMotor
      ∧ rm.1.extOutcome = r.1.extOutcome
      ∧ rm.1.trial = r.1.trial ∧ rm.1.epoch = r.1.epoch
      ∧ rm.1.acc = r.1.acc ∧ rm.1.epcLog = r.1.epcLog)
    ∧ (∃ ro, trainTrialOb s { ob with oavActP := none } = some ro
      ∧ ro.1.extOutcome = s.extOutcome
      ∧ ro.1.extMotor = r.1.extMotor
      ∧ ro.1.trial = r.1.trial ∧ ro.1.epoch = r.1.epoch
      ∧ ro.1.acc = r.1.acc ∧ ro.1.epcLog = r.1.epcLog) := by
  cases hrow : (if s.sequential then some s.trial else s.porder[s.trial]?) with
  | none =>
    rw [trainTrialOb, hrow] at h
    exact absurd h (by simp)
  | some row =>
    cases hst0 : trialStats 0 true ob.stats0 s.acc with
    | none =>
      rw [trainTrialOb, hrow] at h
      simp [hst0] at h
    | some acc1 =>
      cases hst1 : trialStats 1 true ob.stats1 acc1 with
      | none =>
        rw [trainTrialOb, hrow] at h
        simp [hst0, hst1] at h
      | some acc2 =>
        rw [trainTrialOb, hrow] at h
        simp only [hst0, hst1] at h
        constructor
        · rw [trainTrialOb]
          simp only [hrow, hst0, hst1]
          by_cases hb : s.trial + 1 ≥ s.rows
          · simp only [if_pos hb] at h ⊢
            obtain rfl := (Option.some.inj h).symm
            exact ⟨_, rfl, by simp [clearVec], rfl, rfl, rfl, rfl, rfl⟩
          · simp only [if_neg hb] at h ⊢
            obtain rfl := (Option.some.inj h).symm
            exact ⟨_, rfl, by simp [clearVec], rfl, rfl, rfl, rfl, rfl⟩
        · rw [trainTrialOb]
          simp only [hrow, hst0, hst1]
          by_cases hb : s.trial + 1 ≥ s.rows
          · simp only [if_pos hb] at h ⊢
            obtain rfl := (Option.some.inj h).symm
            exact ⟨_, rfl, by simp [clearVec], rfl, rfl, rfl, rfl, rfl⟩
          · simp only [if_neg hb] at h ⊢
            obtain rfl := (Option.some.inj h).symm
            exact ⟨_, rfl, by simp [clearVec], rfl, rfl, rfl, rfl, rfl⟩

/-- C6 witness: on `simC1`'s trial, failing the Motor read leaves the Motor
column untouched while the Outcome capture still lands. -/
theorem c6_read_fail_skips_role_only_witness :
    ∃ rm, trainTrialOb simC1 { obsC1 0 with mavActP := none } = some rm
      ∧ rm.1.extMotor = simC1.extMotor
      ∧ rm.1.extOutcome = ([0, 0, 5, 6] : List ℚ) := by
  have hs : (trainTrialOb simC1 (obsC1 0)).isSome = true := by
    with_unfolding_all decide
  have h : trainTrialOb simC1 (obsC1 0)
      = some ((trainTrialOb simC1 (obsC1 0)).get hs) :=
    (Option.some_get hs).symm
  have hout : ((trainTrialOb simC1 (obsC1 0)).map fun r => r.1.extOutcome)
      = some [0, 0, 5, 6] := by
    with_unfolding_all decide
  rw [h, Option.map_some'] at hout
  obtain ⟨⟨rm, hrm, hm1, hm2, _, _, _, _⟩, -⟩ :=
    c6_read_fail_skips_role_only simC1 (obsC1 0) _ h
  exact ⟨rm, hrm, hm1, hm2.trans (Option.some.inj hout)⟩

/-- The Pattern Store state corresponding to a failed (or empty) load. -/
def patsEmpty : PatStore := { rows := 0, cells := 25, motor := [], outcome := [] }

/-- C9 amended: a Pattern Store load failure is logged (`log.Println`) and
the run keeps whatever store state already exists; but with an empty store
in the default random-presentation mode the next training step fails on an
out-of-range read of the empty permutation — it does not pass through to an
immediate epoch boundary. -/
theorem c9_load_logged_then_empty_fails :
    (∀ (e : Unit) (cur : PatStore), openExtReps (Except.error e) cur = (cur, true))
    ∧ (∀ (s : SimState) (obs : Nat → TrialObs),
        s.sequential = false → s.porder = [] → trainTrial s obs = none) := by
  constructor
  · intro e cur
    rfl
  · intro s obs hseq hp
    simp [trainTrial, trainTrialOb, hseq, hp]

/-- C9 amended, witness: the logged-failure path keeps the existing (empty)
store, and the following training step on the empty store fails. -/
theorem c9_load_logged_then_empty_fails_witness :
    openExtReps (Except.error ()) patsEmpty = (patsEmpty, true)
    ∧ trainTrial simC9 obsC1 = none :=
  ⟨c9_load_logged_then_empty_fails.1 () patsEmpty,
   c9_load_logged_then_empty_fails.2 simC9 obsC1 rfl rfl⟩

/-! ### C10 -/

/-- Recognizer for the `Net.DWt()` event. -/
def isDwt : Ev → Bool := fun e => match e with | Ev.dwt => true | _ => false

/-- Recognizer for the `Net.WtFmDWt()` event. -/
def isWtFmDwt : Ev → Bool := fun e => match e with | Ev.wtFmDwt => true | _ => false

/-- Recognizer for the settle part of `AlphaCyc`. -/
def isSettle : Ev → Bool := fun e => match e with | Ev.settle => true | _ => false

/-- C10: every `TrainTrial` settles each of its two sub-phases with learning
enabled — `DWt` and `WtFmDWt` each occur exactly twice per trial, once right
after each settle — and the whole trial is independent of the `Sim.Test`
field: flipping `Test` changes nothing but the stored flag itself.  There is
no non-learning path through `TrainTrial`. -/
theorem c10_learning_unconditional (s : SimState) (ob : TrialObs)
    (r : SimState × List Ev) (h : trainTrialOb s ob = some r) :
    r.2.countP isDwt = 2 ∧ r.2.countP isWtFmDwt = 2 ∧ r.2.countP isSettle = 2
    ∧ (∃ l1 l2 l3, r.2 = l1 ++ [Ev.settle, Ev.dwt, Ev.wtFmDwt] ++ l2
          ++ [Ev.settle, Ev.dwt, Ev.wtFmDwt] ++ l3)
    ∧ ∀ b, trainTrialOb { s with test := b } ob = some ({ r.1 with test := b }, r.2) := by
  cases hrow : (if s.sequential then some s.trial else s.porder[s.trial]?) with
  | none =>
    rw [trainTrialOb, hrow] at h
    exact absurd h (by simp)
  | some row =>
    cases hst0 : trialStats 0 true ob.stats0 s.acc with
    | none =>
      rw [trainTrialOb, hrow] at h
      simp [hst0] at h
    | some acc1 =>
      cases hst1 : trialStats 1 true ob.stats1 acc1 with
      | none =>
        rw [trainTrialOb, hrow] at h
        simp [hst0, hst1] at h
      | some acc2 =>
        rw [trainTrialOb, hrow] at h
        simp only [hst0, hst1] at h
        by_cases hb : s.trial + 1 ≥ s.rows
        · simp only [if_pos hb] at h
          obtain rfl := (Option.some.inj h).symm
          refine ⟨?_, ?_, ?_, ?_, ?_⟩
          · simp only [List.countP_append]
            split <;> split <;>
              simp [isDwt, List.countP_cons, List.countP_nil]
          · simp only [List.countP_append]
            split <;> split <;>
              simp [isWtFmDwt, List.countP_cons, List.countP_nil]
          · simp only [List.countP_append]
            split <;> split <;>
              simp [isSettle, List.countP_cons, List.countP_nil]
          · refine ⟨[Ev.apply 0 row],
              ((if ob.mavActP.isSome then [Ev.captureWrite row] else [Ev.captureSkip])
                ++ (if ob.oavActP.isSome then [Ev.captureWrite row] else [Ev.captureSkip]))
                ++ [Ev.stats 0, Ev.apply 1 row],
              [Ev.clearRelay row 0 0, Ev.stats 1, Ev.logEpoch s.epoch, Ev.permute], ?_⟩
            simp
          · intro b
            simp only [trainTrialOb]
            rw [hrow]
            simp only [hst0, hst1, if_pos hb]
        · simp only [if_neg hb] at h
          obtain rfl := (Option.some.inj h).symm
          refine ⟨?_, ?_, ?_, ?_, ?_⟩
          · simp only [List.countP_append]
            split <;> split <;>
              simp [isDwt, List.countP_cons, List.countP_nil]
          · simp only [List.countP_append]
            split <;> split <;>
              simp [isWtFmDwt, List.countP_cons, List.countP_nil]
          · simp only [List.countP_append]
            split <;> split <;>
              simp [isSettle, List.countP_cons, List.countP_nil]
          · refine ⟨[Ev.apply 0 row],
              ((if ob.mavActP.isSome then [Ev.captureWrite row] else [Ev.captureSkip])
                ++ (if ob.oavActP.isSome then [Ev.captureWrite row] else [Ev.captureSkip]))
                ++ [Ev.stats 0, Ev.apply 1 row],
              [Ev.clearRelay row 0 0, Ev.stats 1], ?_⟩
            simp
          · intro b
            simp only [trainTrialOb]
            rw [hrow]
            simp only [hst0, hst1, if_neg hb]

/-- C10 witness: on `simC1`'s trial the learning calls occur exactly twice
and the run is unchanged by the `Test` flag. -/
theorem c10_learning_unconditional_witness :
    ∃ r, trainTrialOb simC1 (obsC1 0) = some r ∧ r.2.countP isDwt = 2
      ∧ trainTrialOb { simC1 with test := true } (obsC1 0)
          = some ({ r.1 with test := true }, r.2) := by
  have hs : (trainTrialOb simC1 (obsC1 0)).isSome = true := by
    with_unfolding_all decide
  have h : trainTrialOb simC1 (obsC1 0)
      = some ((trainTrialOb simC1 (obsC1 0)).get hs) :=
    (Option.some_get hs).symm
  obtain ⟨h1, -, -, -, h5⟩ := c10_learning_unconditional simC1 (obsC1 0) _ h
  exact ⟨_, h, h1, h5 true⟩

/-! ### C7 -/

/-- A trace fragment that is one complete trial: it contains no read of the
stop flag, and it contains the sub-phase-0 statistics event followed (after
the sub-phase-1 settle and reset) by the sub-phase-1 statistics event. -/
def CompleteTrialTrace (t : List Ev) : Prop :=
  (∀ b, Ev.checkStop b ∉ t)
  ∧ ∃ l1 l2 l3, t = l1 ++ Ev.stats 0 :: (l2 ++ Ev.stats 1 :: l3)

/-- Traces in which the stop flag is read only at trial boundaries: a
concatenation of complete-trial blocks, each followed by exactly one
stop-flag read. -/
inductive TrialAtomicTrace : List Ev → Prop where
  | nil : TrialAtomicTrace []
  | block (t : List Ev) (b : Bool) (rest : List Ev) :
      CompleteTrialTrace t → TrialAtomicTrace rest →
      TrialAtomicTrace (t ++ Ev.checkStop b :: rest)

theorem trainTrialOb_trace_complete (s : SimState) (ob : TrialObs)
    (r : SimState × List Ev) (h : trainTrialOb s ob = some r) :
    CompleteTrialTrace r.2 := by
  cases hrow : (if s.sequential then some s.trial else s.porder[s.trial]?) with
  | none =>
    rw [trainTrialOb, hrow] at h
    exact absurd h (by simp)
  | some row =>
    cases hst0 : trialStats 0 true ob.stats0 s.acc with
    | none =>
      rw [trainTrialOb, hrow] at h
      simp [hst0] at h
    | some acc1 =>
      cases hst1 : trialStats 1 true ob.stats1 acc1 with
      | none =>
        rw [trainTrialOb, hrow] at h
        simp [hst0, hst1] at h
      | some acc2 =>
        rw [trainTrialOb, hrow] at h
        simp only [hst0, hst1] at h
        by_cases hb : s.trial + 1 ≥ s.rows
        · simp only [if_pos hb] at h
          obtain rfl := (Option.some.inj h).symm
          constructor
          · intro b
            simp only [List.mem_append, List.mem_cons]
            split <;> split <;> simp
          · exact ⟨[Ev.apply 0 row, Ev.settle, Ev.dwt, Ev.wtFmDwt]
                ++ ((if ob.mavActP.isSome then [Ev.captureWrite row] else [Ev.captureSkip])
                  ++ (if ob.oavActP.isSome then [Ev.captureWrite row] else [Ev.captureSkip])),
              [Ev.apply 1 row, Ev.settle, Ev.dwt, Ev.wtFmDwt, Ev.clearRelay row 0 0],
              [Ev.logEpoch s.epoch, Ev.permute], by simp⟩
        · simp only [if_neg hb] at h
          obtain rfl := (Option.some.inj h).symm
          constructor
          · intro b
            simp only [List.mem_append, List.mem_cons]
            split <;> split <;> simp
          · exact ⟨[Ev.apply 0 row, Ev.settle, Ev.dwt, Ev.wtFmDwt]
                ++ ((if ob.mavActP.isSome then [Ev.captureWrite row] else [Ev.captureSkip])
                  ++ (if ob.oavActP.isSome then [Ev.captureWrite row] else [Ev.captureSkip])),
              [Ev.apply 1 row, Ev.settle, Ev.dwt, Ev.wtFmDwt, Ev.clearRelay row 0 0],
              [], by simp⟩

theorem trainTrial_trace_complete (s : SimState) (obs : Nat → TrialObs)
    (r : SimState × List Ev) (h : trainTrial s obs = some r) :
    CompleteTrialTrace r.2 :=
  trainTrialOb_trace_complete s (obs s.gstep) r h

theorem trainEpochGo_atomic (fuel : Nat) : ∀ (curEpc : Nat) (s : SimState)
    (obs : Nat → TrialObs) (r : SimState × List Ev),
    trainEpochGo fuel curEpc s obs = some r → TrialAtomicTrace r.2 := by
  induction fuel with
  | zero =>
    intro curEpc s obs r h
    obtain rfl := (Option.some.inj h).symm
    exact .nil
  | succ f ih =>
    intro curEpc s obs r h
    rw [trainEpochGo] at h
    cases htr : trainTrial s obs with
    | none => rw [htr] at h; exact absurd h (by simp)
    | some p =>
      obtain ⟨s1, tr⟩ := p
      rw [htr] at h
      simp only at h
      split at h
      · obtain rfl := (Option.some.inj h).symm
        exact .block tr _ [] (trainTrial_trace_complete s obs _ htr) .nil
      · cases hrec : trainEpochGo f curEpc s1 obs with
        | none => rw [hrec] at h; exact absurd h (by simp)
        | some q =>
          rw [hrec] at h
          obtain rfl := (Option.some.inj h).symm
          exact .block tr _ q.2 (trainTrial_trace_complete s obs _ htr)
            (ih curEpc s1 obs q hrec)

theorem trainGo_atomic (fuel : Nat) : ∀ (s : SimState)
    (obs : Nat → TrialObs) (r : SimState × List Ev),
    trainGo fuel s obs = some r → TrialAtomicTrace r.2 := by
  induction fuel with
  | zero =>
    intro s obs r h
    obtain rfl := (Option.some.inj h).symm
    exact .nil
  | succ f ih =>
    intro s obs r h
    rw [trainGo] at h
    cases htr : trainTrial s obs with
    | none => rw [htr] at h; exact absurd h (by simp)
    | some p =>
      obtain ⟨s1, tr⟩ := p
      rw [htr] at h
      simp only at h
      split at h
      · obtain rfl := (Option.some.inj h).symm
        exact .block tr _ [] (trainTrial_trace_complete s obs _ htr) .nil
      · cases hrec : trainGo f s1 obs with
        | none => rw [hrec] at h; exact absurd h (by simp)
        | some q =>
          rw [hrec] at h
          obtain rfl := (Option.some.inj h).symm
          exact .block tr _ q.2 (trainTrial_trace_complete s obs _ htr)
            (ih s1 obs q hrec)

/-- C7: in `TrainEpoch`'s loop and `Train`'s loop alike, the stop flag is
read only at trial boundaries — every produced event trace decomposes into
complete-trial blocks (sub-phase-0 statistics before sub-phase-1 statistics,
no stop read inside) each followed by exactly one stop-flag read — and
whenever at least one trial runs, the first stop-flag read comes only after
a full trial has completed, so a stop requested at any point during a trial
(including between the sub-phases) takes effect only after sub-phase 1 and
its statistics/log write. -/
theorem c7_stop_only_at_trial_boundaries :
    (∀ (fuel curEpc : Nat) (s : SimState) (obs : Nat → TrialObs)
       (r : SimState × List Ev),
       trainEpochGo fuel curEpc s obs = some r → TrialAtomicTrace r.2)
    ∧ (∀ (fuel : Nat) (s : SimState) (obs : Nat → TrialObs)
       (r : SimState × List Ev),
       trainGo fuel s obs = some r → TrialAtomicTrace r.2)
    ∧ (∀ (fuel curEpc : Nat) (s : SimState) (obs : Nat → TrialObs)
       (r : SimState × List Ev),
       trainEpochGo (fuel + 1) curEpc s obs = some r →
         ∃ t b rest, r.2 = t ++ Ev.checkStop b :: rest ∧ CompleteTrialTrace t) := by
  refine ⟨fun fuel => trainEpochGo_atomic fuel, fun fuel => trainGo_atomic fuel, ?_⟩
  intro fuel curEpc s obs r h
  rw [trainEpochGo] at h
  cases htr : trainTrial s obs with
  | none => rw [htr] at h; exact absurd h (by simp)
  | some p =>
    obtain ⟨s1, tr⟩ := p
    rw [htr] at h
    simp only at h
    split at h
    · obtain rfl := (Option.some.inj h).symm
      exact ⟨tr, _, [], rfl, trainTrial_trace_complete s obs _ htr⟩
    · cases hrec : trainEpochGo fuel curEpc s1 obs with
      | none => rw [hrec] at h; exact absurd h (by simp)
      | some q =>
        rw [hrec] at h
        obtain rfl := (Option.some.inj h).symm
        exact ⟨tr, _, q.2, rfl, trainTrial_trace_complete s obs _ htr⟩

/-- The `simC1` state with a stop request already pending when the trial
starts. -/
def simC7 : SimState := { simC1 with stopNow := true }

/-- C7 witness: even with the stop flag already set before the trial starts,
the epoch loop's trace is a complete trial followed by the stop-flag read. -/
theorem c7_stop_only_at_trial_boundaries_witness :
    ∃ r, trainEpochGo 1 0 simC7 obsC1 = some r ∧ TrialAtomicTrace r.2
      ∧ (∃ t b rest, r.2 = t ++ Ev.checkStop b :: rest ∧ CompleteTrialTrace t)
      ∧ ∃ r2, trainGo 1 simC7 obsC1 = some r2 ∧ TrialAtomicTrace r2.2 := by
  have hs : (trainEpochGo 1 0 simC7 obsC1).isSome = true := by
    with_unfolding_all decide
  have h : trainEpochGo 1 0 simC7 obsC1
      = some ((trainEpochGo 1 0 simC7 obsC1).get hs) :=
    (Option.some_get hs).symm
  have hs2 : (trainGo 1 simC7 obsC1).isSome = true := by
    with_unfolding_all decide
  have h2 : trainGo 1 simC7 obsC1 = some ((trainGo 1 simC7 obsC1).get hs2) :=
    (Option.some_get hs2).symm
  exact ⟨_, h, c7_stop_only_at_trial_boundaries.1 1 0 simC7 obsC1 _ h,
    c7_stop_only_at_trial_boundaries.2.2 0 0 simC7 obsC1 _ h,
    _, h2, c7_stop_only_at_trial_boundaries.2.1 1 simC7 obsC1 _ h2⟩

/-! ### C4 -/

theorem bumpGoalCnt_outSum (oge : ℚ) (acc : Accums) :
    (bumpGoalCnt oge acc).outSumSSE = acc.outSumSSE := by
  rw [bumpGoalCnt]
  split <;> rfl

theorem trialStats0_isSome (accum : Bool) (eng : EngStats) (acc : Accums)
    (h : eng.goalActM.length ≤ eng.outActM.length) :
    (trialStats 0 accum eng acc).isSome = true := by
  obtain ⟨oge, hoge⟩ :=
    Option.isSome_iff_exists.mp (ogeGo_isSome eng.goalActM eng.outActM 0 0 (by omega))
  simp [trialStats, computeOge, hoge]

theorem trialStats0_outSum (accum : Bool) (eng : EngStats) (acc acc1 : Accums)
    (h : trialStats 0 accum eng acc = some acc1) :
    acc1.outSumSSE = (if accum then acc.outSumSSE + eng.outSSE else acc.outSumSSE) := by
  simp only [trialStats] at h
  cases hog : computeOge eng.goalActM eng.outActM with
  | none => rw [hog] at h; exact absurd h (by simp)
  | some oge =>
    rw [hog] at h
    simp only at h
    obtain rfl := (Option.some.inj h).symm
    rw [bumpGoalCnt_outSum]
    cases accum
    · rfl
    · simp [accumOut]

theorem trialStats1_isSome (accum : Bool) (eng : EngStats) (acc : Accums) :
    (trialStats 1 accum eng acc).isSome = true := rfl

theorem trialStats1_outSum (accum : Bool) (eng : EngStats) (acc acc1 : Accums)
    (h : trialStats 1 accum eng acc = some acc1) :
    acc1.outSumSSE = acc.outSumSSE := by
  simp only [trialStats] at h
  obtain rfl := (Option.some.inj h).symm
  cases accum
  · rfl
  · rfl

/-- The engine observations for one trial permit the sub-phase-0 statistics
pass: the Goal layer's `ActM` vector is no longer than the Outcome layer's,
so the goal-vs-outcome comparison loop stays in range. -/
def StatsOK (ob : TrialObs) : Prop :=
  ob.stats0.goalActM.length ≤ ob.stats0.outActM.length

theorem trainTrial_isSome (s : SimState) (obs : Nat → TrialObs)
    (hrowOK : s.sequential = true ∨ s.trial < s.porder.length)
    (hstats : StatsOK (obs s.gstep)) :
    (trainTrial s obs).isSome = true := by
  obtain ⟨row, hrow⟩ :
      ∃ row, (if s.sequential then some s.trial else s.porder[s.trial]?) = some row := by
    cases hseq : s.sequential with
    | true => exact ⟨s.trial, by simp⟩
    | false =>
      rcases hrowOK with h | h
      · rw [hseq] at h
        cases h
      · exact ⟨s.porder[s.trial], by simp [List.getElem?_eq_getElem h]⟩
  obtain ⟨acc1, hst0⟩ :=
    Option.isSome_iff_exists.mp (trialStats0_isSome true (obs s.gstep).stats0 s.acc hstats)
  obtain ⟨acc2, hst1⟩ :=
    Option.isSome_iff_exists.mp (trialStats1_isSome true (obs s.gstep).stats1 acc1)
  simp only [trainTrial, trainTrialOb, hrow, hst0, hst1]
  split <;> rfl

theorem trainTrial_step (s : SimState) (obs : Nat → TrialObs)
    (r : SimState × List Ev) (h : trainTrial s obs = some r) :
    r.1.rows = s.rows ∧ r.1.cells = s.cells ∧ r.1.gstep = s.gstep + 1
      ∧ r.1.stopNow = s.stopNow ∧ r.1.maxEpcs = s.maxEpcs
      ∧ r.1.sequential = s.sequential
      ∧ (s.trial + 1 < s.rows →
          r.1.trial = s.trial + 1 ∧ r.1.epoch = s.epoch ∧ r.1.epcLog = s.epcLog
          ∧ r.1.porder = s.porder
          ∧ r.1.acc.outSumSSE = s.acc.outSumSSE + (obs s.gstep).stats0.outSSE)
      ∧ (s.trial + 1 ≥ s.rows →
          r.1.trial = 0 ∧ r.1.epoch = s.epoch + 1 ∧ r.1.acc.outSumSSE = 0
          ∧ ∃ lrow, r.1.epcLog = epcLogSet s.epcLog s.epoch lrow
              ∧ lrow.outSSE = (s.acc.outSumSSE + (obs s.gstep).stats0.outSSE)
                  / (s.rows : ℚ)) := by
  cases hrow : (if s.sequential then some s.trial else s.porder[s.trial]?) with
  | none =>
    rw [trainTrial, trainTrialOb, hrow] at h
    exact absurd h (by simp)
  | some row =>
    cases hst0 : trialStats 0 true (obs s.gstep).stats0 s.acc with
    | none =>
      rw [trainTrial, trainTrialOb, hrow] at h
      simp [hst0] at h
    | some acc1 =>
      cases hst1 : trialStats 1 true (obs s.gstep).stats1 acc1 with
      | none =>
        rw [trainTrial, trainTrialOb, hrow] at h
        simp [hst0, hst1] at h
      | some acc2 =>
        have houts : acc2.outSumSSE = s.acc.outSumSSE + (obs s.gstep).stats0.outSSE := by
          rw [trialStats1_outSum true (obs s.gstep).stats1 acc1 acc2 hst1]
          simpa using trialStats0_outSum true (obs s.gstep).stats0 s.acc acc1 hst0
        rw [trainTrial, trainTrialOb, hrow] at h
        simp only [hst0, hst1] at h
        by_cases hb : s.trial + 1 ≥ s.rows
        · simp only [if_pos hb] at h
          obtain rfl := (Option.some.inj h).symm
          refine ⟨rfl, rfl, rfl, rfl, rfl, rfl, ?_, ?_⟩
          · intro hlt
            omega
          · intro _
            refine ⟨rfl, rfl, rfl,
              (logEpochRow acc2 s.rows (obs s.gstep).avgs s.epoch).1, rfl, ?_⟩
            show acc2.outSumSSE / (s.rows : ℚ) = _
            rw [houts]
        · simp only [if_neg hb] at h
          obtain rfl := (Option.some.inj h).symm
          refine ⟨rfl, rfl, rfl, rfl, rfl, rfl, ?_, ?_⟩
          · intro _
            exact ⟨rfl, rfl, rfl, rfl, houts⟩
          · intro hge
            omega

theorem trainEpochGo_run : ∀ (k : Nat) (s : SimState) (obs : Nat → TrialObs)
    (fuel : Nat), 1 ≤ k → s.trial + k = s.rows → s.stopNow = false →
    s.porder.length = s.rows → (∀ m, StatsOK (obs m)) → k ≤ fuel →
    ∃ r lrow, trainEpochGo fuel s.epoch s obs = some r
      ∧ r.1.epoch = s.epoch + 1
      ∧ r.1.epcLog = epcLogSet s.epcLog s.epoch lrow
      ∧ lrow.outSSE = (s.acc.outSumSSE
          + ∑ i in Finset.range k, (obs (s.gstep + i)).stats0.outSSE)
          / (s.rows : ℚ) := by
  intro k
  induction k with
  | zero =>
    intro s obs fuel h1 h2 h3 h4 h5 h6
    exact absurd h1 (by omega)
  | succ k ih =>
    intro s obs fuel h1 h2 h3 h4 h5 h6
    cases fuel with
    | zero => exact absurd h6 (by omega)
    | succ f =>
      have hrowOK : s.sequential = true ∨ s.trial < s.porder.length := by
        cases hseq : s.sequential with
        | true => exact Or.inl rfl
        | false => exact Or.inr (by omega)
      obtain ⟨r1, htr⟩ :=
        Option.isSome_iff_exists.mp (trainTrial_isSome s obs hrowOK (h5 s.gstep))
      have htr2 : trainTrial s obs = some (r1.1, r1.2) := by
        rw [Prod.mk.eta]
        exact htr
      obtain ⟨hrows, hcells, hgstep, hstop, hmax, hseq2, hnb, hbd⟩ :=
        trainTrial_step s obs r1 htr
      cases Nat.lt_or_ge (s.trial + 1) s.rows with
      | inr hge =>
        have hk0 : k = 0 := by omega
        subst hk0
        obtain ⟨ht0, hep, haccz, lrow, hlog, hsse⟩ := hbd hge
        have hc : (r1.1.stopNow || decide (r1.1.epoch > s.epoch)) = true := by
          rw [hstop, h3, hep]
          simp
        refine ⟨(r1.1, r1.2 ++ [Ev.checkStop (r1.1.stopNow || decide (r1.1.epoch > s.epoch))]),
          lrow, ?_, hep, hlog, ?_⟩
        · rw [trainEpochGo, htr2]
          simp [hc]
        · rw [hsse]
          congr 1
          rw [Finset.sum_range_one]
          simp
      | inl hlt =>
        have hk1 : 1 ≤ k := by omega
        obtain ⟨ht1, hep1, hlog1, hpord1, hsum1⟩ := hnb hlt
        have ih1 := ih r1.1 obs f hk1 (by omega) (by rw [hstop]; exact h3)
          (by rw [hpord1, h4, hrows]) h5 (by omega)
        obtain ⟨r2, lrow, hrec, hep2, hlog2, hsse2⟩ := ih1
        have hrec2 : trainEpochGo f s.epoch r1.1 obs = some (r2.1, r2.2) := by
          rw [Prod.mk.eta, ← hep1]
          exact hrec
        have hc : (r1.1.stopNow || decide (r1.1.epoch > s.epoch)) = false := by
          rw [hstop, h3, hep1]
          simp
        refine ⟨(r2.1, r1.2 ++ Ev.checkStop (r1.1.stopNow || decide (r1.1.epoch > s.epoch)) :: r2.2),
          lrow, ?_, by rw [hep2, hep1], by rw [hlog2, hlog1, hep1], ?_⟩
        · rw [trainEpochGo, htr2]
          simp [hc, hrec2]
        · rw [hsse2, hsum1, hgstep, hrows]
          congr 1
          rw [Finset.sum_range_succ']
          have hshift : ∀ i, s.gstep + 1 + i = s.gstep + (i + 1) := by omega
          rw [Finset.sum_congr rfl (fun i _ => by rw [hshift i])]
          simp only [Nat.add_zero]
          ring

/-- C4: for a completed epoch of `N ≥ 1` trials run by `TrainEpoch` from the
epoch start (trial 0, outcome SSE accumulator zero, no stop pending), the
row written into the epoch log has `OutSSE` equal to the sum of the per-trial
sub-phase-0 outcome SSE values over the epoch's `N` trials, divided by `N`
(modelled exactly over the rationals). -/
theorem c4_out_sse_epoch_mean (s : SimState) (obs : Nat → TrialObs) (fuel : Nat)
    (h1 : 1 ≤ s.rows) (h2 : s.trial = 0) (h3 : s.acc.outSumSSE = 0)
    (h4 : s.stopNow = false) (h5 : s.porder.length = s.rows)
    (h6 : ∀ m, StatsOK (obs m)) (h7 : s.rows ≤ fuel) :
    ∃ r lrow, trainEpoch fuel s obs = some r
      ∧ r.1.epcLog = epcLogSet s.epcLog s.epoch lrow
      ∧ lrow.outSSE
          = (∑ i in Finset.range s.rows, (obs (s.gstep + i)).stats0.outSSE)
              / (s.rows : ℚ) := by
  obtain ⟨r, lrow, hr, hep, hlog, hsse⟩ :=
    trainEpochGo_run s.rows s obs fuel h1 (by omega) h4 h5 h6 h7
  exact ⟨r, lrow, hr, hlog, by rw [hsse, h3, zero_add]⟩

/-- A 1-row Pattern Store state at the start of an epoch. -/
def simC4 : SimState :=
  { rows := 1, cells := 1, extMotor := [0], extOutcome := [0], trial := 0,
    epoch := 0, maxEpcs := 500, porder := [0], sequential := false,
    test := false, stopNow := false, acc := accZero, epcLog := [], rng := 1,
    gstep := 0 }

/-- Engine observations whose sub-phase-0 outcome SSE is 5. -/
def obsC4 : Nat → TrialObs := fun _ =>
  { mavActP := some [2], oavActP := some [3],
    stats0 := { engZero with outSSE := 5 }, stats1 := engZero,
    avgs := avgsZero }

/-- C4 witness: a one-trial epoch writes an `OutSSE` of (sum of per-trial
outcome SSE) / 1. -/
theorem c4_out_sse_epoch_mean_witness :
    ∃ r lrow, trainEpoch 1 simC4 obsC4 = some r
      ∧ r.1.epcLog = epcLogSet simC4.epcLog simC4.epoch lrow
      ∧ lrow.outSSE
          = (∑ i in Finset.range simC4.rows, (obsC4 (simC4.gstep + i)).stats0.outSSE)
              / (simC4.rows : ℚ) :=
  c4_out_sse_epoch_mean simC4 obsC4 1 (by decide) rfl rfl rfl (by decide)
    (fun m => (by decide :
      (obsC4 0).stats0.goalActM.length ≤ (obsC4 0).stats0.outActM.length)) (by decide)

/-! ### C8 -/

/-- Recognizer for the `PermuteInts` (fresh presentation order) event. -/
def isPermute : Ev → Bool := fun e => match e with | Ev.permute => true | _ => false

/-- Recognizer for the `LogEpoch` (epoch-log write) event. -/
def isLogEpochEv : Ev → Bool := fun e => match e with | Ev.logEpoch _ => true | _ => false

theorem trainTrialOb_permute_per_log (s : SimState) (ob : TrialObs)
    (r : SimState × List Ev) (h : trainTrialOb s ob = some r) :
    r.2.countP isPermute = r.2.countP isLogEpochEv := by
  cases hrow : (if s.sequential then some s.trial else s.porder[s.trial]?) with
  | none =>
    rw [trainTrialOb, hrow] at h
    exact absurd h (by simp)
  | some row =>
    cases hst0 : trialStats 0 true ob.stats0 s.acc with
    | none =>
      rw [trainTrialOb, hrow] at h
      simp [hst0] at h
    | some acc1 =>
      cases hst1 : trialStats 1 true ob.stats1 acc1 with
      | none =>
        rw [trainTrialOb, hrow] at h
        simp [hst0, hst1] at h
      | some acc2 =>
        rw [trainTrialOb, hrow] at h
        simp only [hst0, hst1] at h
        by_cases hb : s.trial + 1 ≥ s.rows
        · simp only [if_pos hb] at h
          obtain rfl := (Option.some.inj h).symm
          simp only [List.countP_append]
          split <;> split <;>
            simp [isPermute, isLogEpochEv, List.countP_cons, List.countP_nil]
        · simp only [if_neg hb] at h
          obtain rfl := (Option.some.inj h).symm
          simp only [List.countP_append]
          split <;> split <;>
            simp [isPermute, isLogEpochEv, List.countP_cons, List.countP_nil]

theorem trainGo_permute_per_log (fuel : Nat) : ∀ (s : SimState)
    (obs : Nat → TrialObs) (r : SimState × List Ev),
    trainGo fuel s obs = some r →
      r.2.countP isPermute = r.2.countP isLogEpochEv := by
  induction fuel with
  | zero =>
    intro s obs r h
    obtain rfl := (Option.some.inj h).symm
    rfl
  | succ f ih =>
    intro s obs r h
    rw [trainGo] at h
    cases htr : trainTrial s obs with
    | none => rw [htr] at h; exact absurd h (by simp)
    | some p =>
      obtain ⟨s1, tr⟩ := p
      rw [htr] at h
      simp only at h
      have h1 := trainTrialOb_permute_per_log s (obs s.gstep) (s1, tr) htr
      simp only at h1
      split at h
      · obtain rfl := (Option.some.inj h).symm
        simp only [List.countP_append, List.countP_cons, List.countP_nil]
        simp [isPermute, isLogEpochEv, h1]
      · cases hrec : trainGo f s1 obs with
        | none => rw [hrec] at h; exact absurd h (by simp)
        | some q =>
          rw [hrec] at h
          obtain rfl := (Option.some.inj h).symm
          have h2 := ih s1 obs q hrec
          simp only [List.countP_append, List.countP_cons, List.countP_nil]
          simp [isPermute, isLogEpochEv, h1, h2]

/-- C8: the full run (`Init` then `Train`) is a deterministic function of the
seed, `maxEpcs`, the Pattern Store, the mode flags, and the engine stream —
two runs with the same seed and `maxEpcs` yield identical states and traces
(hence identical epoch-log tables) whatever the wall clock reads; and within
any run the permutation generator, seeded once at `Init`, advances exactly
once per epoch: every trace carries one `PermuteInts` event per epoch-log
write. -/
theorem c8_same_seed_identical_runs :
    (∀ (seed1 seed2 : Int) (maxEpcs0 : Nat) (pats : PatStore)
       (sequential test : Bool) (obs : Nat → TrialObs) (fuel : Nat) (t1 t2 : Int),
       seed1 = seed2 →
       runSim seed1 maxEpcs0 pats sequential test obs fuel t1
         = runSim seed2 maxEpcs0 pats sequential test obs fuel t2)
    ∧ (∀ (fuel : Nat) (s : SimState) (obs : Nat → TrialObs) (r : SimState × List Ev),
       trainGo fuel s obs = some r →
         r.2.countP isPermute = r.2.countP isLogEpochEv) := by
  constructor
  · intro seed1 seed2 maxEpcs0 pats sq te obs fuel t1 t2 hseed
    subst hseed
    rfl
  · exact fun fuel => trainGo_permute_per_log fuel

/-- A one-row Pattern Store as loaded for a run. -/
def patsC8 : PatStore := { rows := 1, cells := 2, motor := [0, 0], outcome := [1, 1] }

/-- C8 witness: two concrete runs with equal seeds but different wall-clock
values coincide, and a concrete one-epoch run re-permutes exactly once per
epoch-log write. -/
theorem c8_same_seed_identical_runs_witness :
    runSim 5 1 patsC8 false false obsC1 1 3 = runSim 5 1 patsC8 false false obsC1 1 44
    ∧ ∃ r, trainGo 1 simC1 obsC1 = some r
        ∧ r.2.countP isPermute = r.2.countP isLogEpochEv := by
  refine ⟨c8_same_seed_identical_runs.1 5 5 1 patsC8 false false obsC1 1 3 44 rfl, ?_⟩
  have hs : (trainGo 1 simC1 obsC1).isSome = true := by
    with_unfolding_all decide
  have h : trainGo 1 simC1 obsC1 = some ((trainGo 1 simC1 obsC1).get hs) :=
    (Option.some_get hs).symm
  exact ⟨_, h, c8_same_seed_identical_runs.2 1 simC1 obsC1 _ h⟩

end GoalGuy
